import Mathlib

/-!
Shallow embedding of `src/main.py` (scada2protocol): the mapping-driven
transformation engine turning tabular SCADA rows into protocol messages.
Raw cell values are strings, integers or (binary-rounded) numerics; the
numeric cells are modelled over `ℚ`.  Blank/missing cells (pandas `NaN`
or an absent column) are modelled as `none`.  The ambient effects used by
the header factory (wall clock, local timezone, uuid source) are passed
as explicit state.
-/

deriving instance DecidableEq for Except

namespace S2P

/-- A non-blank raw cell value as seen by the engine: a string cell, an
integer cell, or a numeric (float) cell.  Python floats are modelled as
rationals; IEEE-754 rounding is outside the scope of the claims below. -/
inductive Rval where
  | rstr (s : String)
  | rint (n : Int)
  | rfloat (q : ℚ)
deriving DecidableEq

/-- A coerced output value as it appears in a message payload.  `vnull`
is Python `None` (JSON null).  `vdatetime raw tz` stands for the epoch
value produced by the external dateutil/pytz pipeline on input `raw`
with configured timezone `tz`; that pipeline is an external library and
is kept symbolic — no claim below constrains its numeric output. -/
inductive Val where
  | vnull
  | vstr (s : String)
  | vint (n : Int)
  | vfloat (q : ℚ)
  | vdatetime (raw : String) (tz : String)
deriving DecidableEq

/-- Errors of the engine, following the spec's taxonomy: `coercionError`
for a cell that cannot be converted (Python ValueError/IndexError raised
while converting a cell), `configurationError` for a structurally
invalid mapping (unsupported type, bad stream format, unknown stream). -/
inductive Err where
  | coercionError
  | configurationError
deriving DecidableEq

/-- One field specification of the mapping (`m['fields']` entry):
`cfg['type']`, `cfg['tag']`, `cfg.get('turbine_id')`,
`cfg.get('timezone', 'UTC')`, `cfg.get('default')` (absent → null). -/
structure FieldCfg where
  type : String
  tag : String
  turbine_id : Option String := none
  timezone : String := "UTC"
  default : Val := .vnull
deriving DecidableEq

/-- Python `str.split(sep)` for a one-character separator, on the char
list: keeps empty components, never returns an empty list. -/
def splitOnChar (c : Char) : List Char → List (List Char)
  | [] => [[]]
  | x :: rest =>
    match splitOnChar c rest with
    | [] => [[x]]
    | h :: t => if x = c then [] :: h :: t else (x :: h) :: t

/-- Python `s.split('.')`. -/
def pySplitDot (s : String) : List String :=
  (splitOnChar '.' s.data).map String.mk

/-- Python `s.split(':')`. -/
def pySplitColon (s : String) : List String :=
  (splitOnChar ':' s.data).map String.mk

/-- Leading and trailing whitespace stripping, as Python's numeric
constructors apply to string arguments. -/
def pyStrip (cs : List Char) : List Char :=
  ((cs.dropWhile Char.isWhitespace).reverse.dropWhile Char.isWhitespace).reverse

/-- Decimal digits to a natural number. -/
def digitsToNat (l : List Char) : Nat :=
  l.foldl (fun a c => a * 10 + (c.toNat - 48)) 0

/-- Strip one optional leading sign, returning the sign as `±1`. -/
def splitSign : List Char → Int × List Char
  | '-' :: rest => (-1, rest)
  | '+' :: rest => (1, rest)
  | cs => (1, cs)

/-- Python `int(s)` on a string: optional surrounding whitespace, one
optional sign, then a nonempty run of decimal digits; anything else
raises ValueError (modelled as `none`).  Underscored literals are
outside the modelled grammar; no claim below exercises them. -/
def pyIntOfString (s : String) : Option Int :=
  match splitSign (pyStrip s.data) with
  | (sg, ds) =>
    if ds.isEmpty || !(ds.all Char.isDigit) then none
    else some (sg * (digitsToNat ds : Int))

/-- Discrete phase of Python `float(s)`: one optional sign, a mantissa
`digits[.digits] | .digits`, an optional `e`/`E` exponent.  Returns the
sign, the integer-part value, the fractional-part value and digit
count, and the exponent.  `inf`/`nan` literals and underscores are
outside the modelled grammar (they have no rational counterpart); no
claim below exercises them. -/
def pyFloatParts (cs : List Char) : Option (Int × Nat × Nat × Nat × Int) :=
  match splitSign cs with
  | (sg, cs1) =>
    let ip := cs1.takeWhile Char.isDigit
    let rest1 := cs1.dropWhile Char.isDigit
    let fp :=
      match rest1 with
      | '.' :: r => r.takeWhile Char.isDigit
      | _ => []
    let rest2 :=
      match rest1 with
      | '.' :: r => r.dropWhile Char.isDigit
      | _ => rest1
    if ip.isEmpty && fp.isEmpty then none
    else
      match rest2 with
      | [] => some (sg, digitsToNat ip, digitsToNat fp, fp.length, 0)
      | e :: r3 =>
        if e = 'e' ∨ e = 'E' then
          match splitSign r3 with
          | (esg, eds) =>
            if eds.isEmpty || !(eds.all Char.isDigit) then none
            else some (sg, digitsToNat ip, digitsToNat fp, fp.length, esg * (digitsToNat eds : Int))
        else none

/-- The rational value denoted by the parts of a Python float literal. -/
def ratOfParts : Int × Nat × Nat × Nat × Int → ℚ
  | (sg, ip, fpv, fpl, ex) => (sg : ℚ) * (((ip : ℚ) + (fpv : ℚ) / (10 : ℚ) ^ fpl) * (10 : ℚ) ^ ex)

/-- Python `float(s)` on a string: whitespace-stripped parse of a signed
decimal literal, as a rational. -/
def pyFloatOfString (s : String) : Option ℚ :=
  (pyFloatParts (pyStrip s.data)).map ratOfParts

/-- Python `int(f)` on a float: truncation toward zero. -/
def pyTruncToInt (q : ℚ) : Int :=
  q.num.tdiv (q.den : Int)

/-- Python `int(raw)` on a cell value. -/
def pyIntOfRval : Rval → Option Int
  | .rstr s => pyIntOfString s
  | .rint n => some n
  | .rfloat q => some (pyTruncToInt q)

/-- Python `float(raw)` on a cell value. -/
def pyFloatOfRval : Rval → Option ℚ
  | .rstr s => pyFloatOfString s
  | .rint n => some (n : ℚ)
  | .rfloat q => some q

/-- Python `str(raw)` on a cell value.  The float rendering is a
stand-in (exact Python float repr is not representable over `ℚ`); no
claim below applies `str` to a float cell. -/
def pystr : Rval → String
  | .rstr s => s
  | .rint n => toString n
  | .rfloat q => toString q.num ++ (if q.den = 1 then ".0" else "e" ++ toString q.den)

/-- `parse_value(raw, cfg)` of `src/main.py` lines 26-53.  A blank cell
(`pd.isna`) returns the default untouched; otherwise dispatch on the
configured type string; an unknown type raises (ConfigurationError per
the spec's taxonomy).  The `datetime` branch keeps the external parse
symbolic (see `Val.vdatetime`); its dateutil failure cases are likewise
not modelled.  The `duration` branch reads `parts[0..2]` of the colon
split: components beyond the third are ignored, a missing component is
an IndexError (CoercionError per the taxonomy). -/
def parse_value (raw : Option Rval) (cfg : FieldCfg) : Except Err Val :=
  match raw with
  | none => .ok cfg.default
  | some r =>
    if cfg.type = "string" then .ok (.vstr (pystr r))
    else if cfg.type = "int" then
      match pyIntOfRval r with
      | some n => .ok (.vint n)
      | none => .error .coercionError
    else if cfg.type = "float" then
      match pyFloatOfRval r with
      | some q => .ok (.vfloat q)
      | none => .error .coercionError
    else if cfg.type = "datetime" then
      .ok (.vdatetime (pystr r) cfg.timezone)
    else if cfg.type = "duration" then
      match pySplitColon (pystr r) with
      | p0 :: p1 :: p2 :: _ =>
        match pyIntOfString p0, pyIntOfString p1, pyFloatOfString p2 with
        | some h, some mi, some se =>
          .ok (.vfloat ((h : ℚ) * 3600 + (mi : ℚ) * 60 + se))
        | _, _, _ => .error .coercionError
      | _ => .error .coercionError
    else .error .configurationError

example : pySplitColon "1:02:03.500" = ["1", "02", "03.500"] := by decide
example : pyFloatOfString "03.500" = some (7 / 2 : ℚ) := by
  have h : pyFloatParts (pyStrip "03.500".data) = some (1, 3, 500, 3, 0) := by decide
  show (pyFloatParts (pyStrip "03.500".data)).map ratOfParts = _
  rw [h]
  norm_num [ratOfParts]
example : pyIntOfString " -42 " = some (-42) := by decide
example : pyIntOfString "3.7" = none := by decide
example : pyTruncToInt (Rat.mk' 37 10) = 3 := by decide
example :
    parse_value (some (.rstr "abc")) { type := "duration", tag := "t" } =
      .error .coercionError := by decide
example :
    parse_value (some (.rfloat (Rat.mk' 37 10))) { type := "int", tag := "x" } =
      .ok (.vint 3) := by decide

/-- The ambient clock state visible to `datetime.utcnow().timestamp()`:
the true wall-clock instant (milliseconds since the UNIX epoch, UTC) and
the UTC offset of the process's local timezone (milliseconds, positive
east of UTC). -/
structure Clock where
  epoch_ms : Int
  local_offset_ms : Int
deriving DecidableEq

/-- `int(datetime.utcnow().timestamp() * 1000)` of `src/main.py` line 63.
`utcnow()` yields a naive datetime holding the UTC wall-clock reading;
`timestamp()` then interprets that naive datetime as local time, so the
result is the true epoch instant shifted back by the local UTC offset. -/
def py_utcnow_timestamp_ms (c : Clock) : Int :=
  c.epoch_ms - c.local_offset_ms

/-- A message header (`src/main.py` lines 58-64). -/
structure Header where
  stream : String
  function : String
  message_id : String
  protocol_version : String
  sent_time : Int
deriving DecidableEq

/-- `make_header(stream, version)` of `src/main.py` lines 55-64.  The
ambient uuid source and wall clock are passed explicitly.  Python's
`s, f = stream.split('.')` raises (ConfigurationError per the spec's
taxonomy) unless the split has exactly two components; the components
themselves may be empty. -/
def make_header (stream version : String) (c : Clock) (uid : String) : Except Err Header :=
  match pySplitDot stream with
  | [s, f] =>
    .ok { stream := s, function := f, message_id := uid, protocol_version := version,
          sent_time := py_utcnow_timestamp_ms c }
  | _ => .error .configurationError

/-- A source row: an ordered association of column name to cell, where a
cell is `none` when blank/missing (pandas `NaN`). -/
abbrev Row := List (String × Option Rval)

/-- First-match lookup in an association list with decidable key
equality (Python dict/Series indexing). -/
def assocGet {κ ν : Type} [DecidableEq κ] : List (κ × ν) → κ → Option ν
  | [], _ => none
  | (k0, v0) :: rest, k => if k0 = k then some v0 else assocGet rest k

/-- `row.get(col)`: `none` both for an absent column and a blank cell
(`pd.isna` holds of either). -/
def getRaw (row : Row) (col : String) : Option Rval :=
  match assocGet row col with
  | some cell => cell
  | none => none

/-- A message payload: a Python dict from output tag to coerced value,
modelled as an insertion-ordered association list with unique keys. -/
abbrev Payload := List (String × Val)

/-- Python dict assignment `d[k] = v`: update in place if the key
exists, else append. -/
def dictInsert (d : Payload) (k : String) (v : Val) : Payload :=
  match d with
  | [] => [(k, v)]
  | (k0, v0) :: rest => if k0 = k then (k0, v) :: rest else (k0, v0) :: dictInsert rest k v

/-- The per-row accumulator of the grouped (`T1.F01`) branch: a dict
from group key (`cfg.get('turbine_id')`, possibly absent) to partially
built payload. -/
abbrev Buckets := List (Option String × Payload)

/-- The `"turbine_id"` value seeded into a fresh bucket: the key string,
or Python `None` when the field spec carries no `turbine_id`. -/
def tidVal : Option String → Val
  | some s => .vstr s
  | none => .vnull

/-- `buckets[tid][tag] = val` on an existing key `tid`. -/
def bucketInsert (bs : Buckets) (tid : Option String) (tag : String) (v : Val) : Buckets :=
  bs.map (fun kp => if kp.1 = tid then (kp.1, dictInsert kp.2 tag v) else kp)

/-- State of the grouped branch while scanning one row's fields:
the accumulated buckets and `ts_epoch` (starts as Python `None`). -/
structure GroupSt where
  buckets : Buckets
  ts_epoch : Val
deriving DecidableEq

/-- One iteration of the field loop of the grouped branch
(`src/main.py` lines 85-100): coerce, detect the timestamp tag, seed a
fresh bucket with the group key and the best-known timestamp, then
assign the coerced value under the field's tag. -/
def groupStep (row : Row) (st : GroupSt) (cf : String × FieldCfg) : Except Err GroupSt :=
  match parse_value (getRaw row cf.1) cf.2 with
  | .error e => .error e
  | .ok val =>
    let tag := cf.2.tag
    let tid := cf.2.turbine_id
    let ts := if tag = "timestamp" then val else st.ts_epoch
    let bs :=
      if tid ∈ st.buckets.map Prod.fst then st.buckets
      else st.buckets ++ [(tid, [("turbine_id", tidVal tid), ("timestamp", ts)])]
    .ok { buckets := bucketInsert bs tid tag val, ts_epoch := ts }

/-- The field loop of the grouped branch over a row's declared fields. -/
def groupFields (row : Row) (st : GroupSt) : List (String × FieldCfg) → Except Err GroupSt
  | [] => .ok st
  | cf :: rest =>
    match groupStep row st cf with
    | .error e => .error e
    | .ok st2 => groupFields row st2 rest

/-- The buckets accumulated from one row by the grouped branch
(`src/main.py` lines 83-100). -/
def groupRow (fields : List (String × FieldCfg)) (row : Row) : Except Err Buckets :=
  match groupFields row { buckets := [], ts_epoch := .vnull } fields with
  | .error e => .error e
  | .ok st => .ok st.buckets

/-- The field loop of the `T1.F02` branch (`src/main.py` lines 109-112):
coerce every field into one payload keyed by tag. -/
def flatFieldsT1F02 (row : Row) (p : Payload) : List (String × FieldCfg) → Except Err Payload
  | [] => .ok p
  | cf :: rest =>
    match parse_value (getRaw row cf.1) cf.2 with
    | .error e => .error e
    | .ok v => flatFieldsT1F02 row (dictInsert p cf.2.tag v) rest

/-- The field loop of the `T2.F01` branch (`src/main.py` lines 119-122),
textually identical to the `T1.F02` one. -/
def flatFieldsT2F01 (row : Row) (p : Payload) : List (String × FieldCfg) → Except Err Payload
  | [] => .ok p
  | cf :: rest =>
    match parse_value (getRaw row cf.1) cf.2 with
    | .error e => .error e
    | .ok v => flatFieldsT2F01 row (dictInsert p cf.2.tag v) rest

/-- The mapping YAML contents used by `transform`: `m['stream']`,
`m['version']`, `m['fields']` in declaration order. -/
structure Mapping where
  stream : String
  version : String
  fields : List (String × FieldCfg)

/-- An output message. -/
structure Msg where
  header : Header
  payload : Payload
deriving DecidableEq

/-- The ambient effect sources of a run, passed explicitly: the uuid
drawn and the clock observed when building the n-th header of the run. -/
structure Env where
  uuid : Nat → String
  clock : Nat → Clock

/-- Emission loop of the grouped branch (`src/main.py` lines 102-104):
one message per accumulated bucket, each with a fresh header. -/
def emitBuckets (env : Env) (stream version : String) : Nat → Buckets → Except Err (List Msg)
  | _, [] => .ok []
  | idx, (_, p) :: rest =>
    match make_header stream version (env.clock idx) (env.uuid idx) with
    | .error e => .error e
    | .ok h =>
      match emitBuckets env stream version (idx + 1) rest with
      | .error e => .error e
      | .ok more => .ok ({ header := h, payload := p } :: more)

/-- The row loop of `transform` (`src/main.py` lines 79-127), indexed by
the number of headers built so far.  The dispatch on the stream
identifier happens inside the loop, exactly as in the source: an
unsupported stream raises only once a row is reached. -/
def transformGo (env : Env) (m : Mapping) : Nat → List Row → Except Err (List Msg)
  | _, [] => .ok []
  | idx, row :: rest =>
    if m.stream = "T1.F01" then
      match groupRow m.fields row with
      | .error e => .error e
      | .ok bs =>
        match emitBuckets env m.stream m.version idx bs with
        | .error e => .error e
        | .ok msgs =>
          match transformGo env m (idx + msgs.length) rest with
          | .error e => .error e
          | .ok more => .ok (msgs ++ more)
    else if m.stream = "T1.F02" then
      match flatFieldsT1F02 row [] m.fields with
      | .error e => .error e
      | .ok p =>
        match make_header m.stream m.version (env.clock idx) (env.uuid idx) with
        | .error e => .error e
        | .ok h =>
          match transformGo env m (idx + 1) rest with
          | .error e => .error e
          | .ok more => .ok ({ header := h, payload := p } :: more)
    else if m.stream = "T2.F01" then
      match flatFieldsT2F01 row [] m.fields with
      | .error e => .error e
      | .ok p =>
        match make_header m.stream m.version (env.clock idx) (env.uuid idx) with
        | .error e => .error e
        | .ok h =>
          match transformGo env m (idx + 1) rest with
          | .error e => .error e
          | .ok more => .ok ({ header := h, payload := p } :: more)
    else .error .configurationError

/-- `transform` of `src/main.py` lines 68-134, restricted to its core
(mapping and rows in, message sequence out; file I/O excluded). -/
def transform (env : Env) (m : Mapping) (rows : List Row) : Except Err (List Msg) :=
  transformGo env m 0 rows

/-- A fixed effect environment for concrete evaluations. -/
def env0 : Env where
  uuid := fun n => toString n
  clock := fun _ => { epoch_ms := 0, local_offset_ms := 0 }

lemma assocGet_eq_none {κ ν : Type} [DecidableEq κ] (l : List (κ × ν)) (k : κ) :
    assocGet l k = none ↔ k ∉ l.map Prod.fst := by
  induction l with
  | nil => simp [assocGet]
  | cons kv rest ih =>
    obtain ⟨k0, v0⟩ := kv
    by_cases h : k0 = k
    · subst h; simp [assocGet]
    · simp [assocGet, h, ih, Ne.symm h]

lemma assocGet_append_left {κ ν : Type} [DecidableEq κ] (l1 l2 : List (κ × ν)) (k : κ)
    (h : k ∈ l1.map Prod.fst) : assocGet (l1 ++ l2) k = assocGet l1 k := by
  induction l1 with
  | nil => simp at h
  | cons kv rest ih =>
    obtain ⟨k0, v0⟩ := kv
    by_cases hk : k0 = k
    · simp [assocGet, hk]
    · rw [List.cons_append, show assocGet ((k0, v0) :: (rest ++ l2)) k = assocGet (rest ++ l2) k
        from if_neg hk, show assocGet ((k0, v0) :: rest) k = assocGet rest k from if_neg hk]
      apply ih
      simp only [List.map_cons, List.mem_cons] at h
      rcases h with h | h
      · exact absurd h.symm hk
      · exact h

lemma assocGet_append_right {κ ν : Type} [DecidableEq κ] (l1 l2 : List (κ × ν)) (k : κ)
    (h : k ∉ l1.map Prod.fst) : assocGet (l1 ++ l2) k = assocGet l2 k := by
  induction l1 with
  | nil => simp
  | cons kv rest ih =>
    obtain ⟨k0, v0⟩ := kv
    simp only [List.map_cons, List.mem_cons] at h
    push_neg at h
    rw [List.cons_append, show assocGet ((k0, v0) :: (rest ++ l2)) k = assocGet (rest ++ l2) k
      from if_neg (fun hk : k0 = k => h.1 hk.symm)]
    exact ih h.2

lemma dictInsert_get_self (d : Payload) (k : String) (v : Val) :
    assocGet (dictInsert d k v) k = some v := by
  induction d with
  | nil => simp [dictInsert, assocGet]
  | cons kv rest ih =>
    obtain ⟨k0, v0⟩ := kv
    by_cases h : k0 = k
    · subst h; simp [dictInsert, assocGet]
    · rw [show dictInsert ((k0, v0) :: rest) k v = (k0, v0) :: dictInsert rest k v
        from if_neg h, show assocGet ((k0, v0) :: dictInsert rest k v) k = assocGet (dictInsert rest k v) k
        from if_neg h]
      exact ih

lemma dictInsert_get_ne (d : Payload) (k : String) (v : Val) (k' : String) (h : k' ≠ k) :
    assocGet (dictInsert d k v) k' = assocGet d k' := by
  induction d with
  | nil =>
    show (if k = k' then some v else none) = none
    exact if_neg fun hk : k = k' => h hk.symm
  | cons kv rest ih =>
    obtain ⟨k0, v0⟩ := kv
    by_cases hk : k0 = k
    · subst hk
      rw [show dictInsert ((k0, v0) :: rest) k0 v = (k0, v) :: rest from if_pos rfl]
      rw [show assocGet ((k0, v) :: rest) k' = assocGet rest k' from if_neg fun he : k0 = k' => h he.symm,
        show assocGet ((k0, v0) :: rest) k' = assocGet rest k' from if_neg fun he : k0 = k' => h he.symm]
    · rw [show dictInsert ((k0, v0) :: rest) k v = (k0, v0) :: dictInsert rest k v from if_neg hk]
      by_cases hk2 : k0 = k'
      · subst hk2
        rw [show assocGet ((k0, v0) :: dictInsert rest k v) k0 = some v0 from if_pos rfl,
          show assocGet ((k0, v0) :: rest) k0 = some v0 from if_pos rfl]
      · rw [show assocGet ((k0, v0) :: dictInsert rest k v) k' = assocGet (dictInsert rest k v) k'
          from if_neg hk2, show assocGet ((k0, v0) :: rest) k' = assocGet rest k' from if_neg hk2]
        exact ih

lemma dictInsert_keys_subset (d : Payload) (k : String) (v : Val) (t : String)
    (ht : t ∈ (dictInsert d k v).map Prod.fst) : t ∈ d.map Prod.fst ∨ t = k := by
  induction d with
  | nil => exact Or.inr (by simpa [dictInsert] using ht)
  | cons kv rest ih =>
    obtain ⟨k0, v0⟩ := kv
    by_cases h : k0 = k
    · subst h
      rw [show dictInsert ((k0, v0) :: rest) k0 v = (k0, v) :: rest from if_pos rfl] at ht
      simp only [List.map_cons, List.mem_cons] at ht ⊢
      rcases ht with ht | ht
      · exact Or.inl (Or.inl ht)
      · exact Or.inl (Or.inr ht)
    · rw [show dictInsert ((k0, v0) :: rest) k v = (k0, v0) :: dictInsert rest k v from if_neg h] at ht
      simp only [List.map_cons, List.mem_cons] at ht ⊢
      rcases ht with ht | ht
      · exact Or.inl (Or.inl ht)
      · rcases ih ht with h2 | h2
        · exact Or.inl (Or.inr h2)
        · exact Or.inr h2

lemma bucketInsert_keys (bs : Buckets) (tid : Option String) (tag : String) (v : Val) :
    (bucketInsert bs tid tag v).map Prod.fst = bs.map Prod.fst := by
  induction bs with
  | nil => rfl
  | cons kp rest ih =>
    obtain ⟨k0, p0⟩ := kp
    simp only [bucketInsert, List.map_cons] at ih ⊢
    by_cases h : k0 = tid
    · rw [show (if (k0, p0).1 = tid then ((k0, p0).1, dictInsert (k0, p0).2 tag v) else (k0, p0)) =
        (k0, dictInsert p0 tag v) from if_pos h]
      exact congrArg (k0 :: ·) ih
    · rw [show (if (k0, p0).1 = tid then ((k0, p0).1, dictInsert (k0, p0).2 tag v) else (k0, p0)) =
        (k0, p0) from if_neg h]
      exact congrArg (k0 :: ·) ih

lemma bucketInsert_get_self (bs : Buckets) (tid : Option String) (tag : String) (v : Val) :
    assocGet (bucketInsert bs tid tag v) tid = (assocGet bs tid).map (fun p => dictInsert p tag v) := by
  induction bs with
  | nil => rfl
  | cons kp rest ih =>
    obtain ⟨k0, p0⟩ := kp
    simp only [bucketInsert, List.map_cons]
    by_cases h : k0 = tid
    · rw [show (if (k0, p0).1 = tid then ((k0, p0).1, dictInsert (k0, p0).2 tag v) else (k0, p0)) =
        (k0, dictInsert p0 tag v) from if_pos h]
      rw [show assocGet ((k0, dictInsert p0 tag v) :: List.map _ rest) tid = some (dictInsert p0 tag v)
        from if_pos h, show assocGet ((k0, p0) :: rest) tid = some p0 from if_pos h]
      rfl
    · rw [show (if (k0, p0).1 = tid then ((k0, p0).1, dictInsert (k0, p0).2 tag v) else (k0, p0)) =
        (k0, p0) from if_neg h]
      rw [show assocGet ((k0, p0) :: List.map _ rest) tid = assocGet (List.map _ rest) tid from if_neg h,
        show assocGet ((k0, p0) :: rest) tid = assocGet rest tid from if_neg h]
      exact ih

lemma bucketInsert_get_ne (bs : Buckets) (tid : Option String) (tag : String) (v : Val)
    (k : Option String) (h : k ≠ tid) :
    assocGet (bucketInsert bs tid tag v) k = assocGet bs k := by
  induction bs with
  | nil => rfl
  | cons kp rest ih =>
    obtain ⟨k0, p0⟩ := kp
    simp only [bucketInsert, List.map_cons]
    by_cases hk : k0 = tid
    · rw [show (if (k0, p0).1 = tid then ((k0, p0).1, dictInsert (k0, p0).2 tag v) else (k0, p0)) =
        (k0, dictInsert p0 tag v) from if_pos hk]
      have hne : ¬k0 = k := fun he => h (he ▸ hk)
      rw [show assocGet ((k0, dictInsert p0 tag v) :: List.map _ rest) k = assocGet (List.map _ rest) k
        from if_neg hne, show assocGet ((k0, p0) :: rest) k = assocGet rest k from if_neg hne]
      exact ih
    · rw [show (if (k0, p0).1 = tid then ((k0, p0).1, dictInsert (k0, p0).2 tag v) else (k0, p0)) =
        (k0, p0) from if_neg hk]
      by_cases hk2 : k0 = k
      · subst hk2
        rw [show assocGet ((k0, p0) :: List.map _ rest) k0 = some p0 from if_pos rfl,
          show assocGet ((k0, p0) :: rest) k0 = some p0 from if_pos rfl]
      · rw [show assocGet ((k0, p0) :: List.map _ rest) k = assocGet (List.map _ rest) k from if_neg hk2,
          show assocGet ((k0, p0) :: rest) k = assocGet rest k from if_neg hk2]
        exact ih

lemma assocGet_mem_of_some {κ ν : Type} [DecidableEq κ] (l : List (κ × ν)) (k : κ) (v : ν)
    (h : assocGet l k = some v) : k ∈ l.map Prod.fst := by
  by_contra hmem
  rw [(assocGet_eq_none l k).2 hmem] at h
  exact Option.noConfusion h

/-- Destructor for one successful iteration of the grouped field loop. -/
lemma groupStep_cases (row : Row) (st : GroupSt) (cf : String × FieldCfg) (st1 : GroupSt)
    (h : groupStep row st cf = .ok st1) :
    ∃ v, parse_value (getRaw row cf.1) cf.2 = .ok v ∧
      st1.ts_epoch = (if cf.2.tag = "timestamp" then v else st.ts_epoch) ∧
      st1.buckets = bucketInsert
        (if cf.2.turbine_id ∈ st.buckets.map Prod.fst then st.buckets
         else st.buckets ++ [(cf.2.turbine_id,
           [("turbine_id", tidVal cf.2.turbine_id),
            ("timestamp", if cf.2.tag = "timestamp" then v else st.ts_epoch)])])
        cf.2.turbine_id cf.2.tag v := by
  unfold groupStep at h
  cases hp : parse_value (getRaw row cf.1) cf.2 with
  | error e => rw [hp] at h; exact absurd h (by simp)
  | ok v =>
    rw [hp] at h
    refine ⟨v, rfl, ?_, ?_⟩
    · injection h with h2
      rw [← h2]
    · injection h with h2
      rw [← h2]

lemma groupStep_isOk (row : Row) (st : GroupSt) (cf : String × FieldCfg) (v : Val)
    (h : parse_value (getRaw row cf.1) cf.2 = .ok v) :
    ∃ st1, groupStep row st cf = .ok st1 :=
  ⟨_, by unfold groupStep; rw [h]⟩

lemma groupFields_cons (row : Row) (st : GroupSt) (cf : String × FieldCfg)
    (rest : List (String × FieldCfg)) :
    groupFields row st (cf :: rest) =
      match groupStep row st cf with
      | Except.error e => Except.error e
      | Except.ok s => groupFields row s rest := rfl

lemma groupFields_ok (row : Row) (l : List (String × FieldCfg))
    (hok : ∀ cf ∈ l, ∃ v, parse_value (getRaw row cf.1) cf.2 = .ok v) :
    ∀ st, ∃ st2, groupFields row st l = .ok st2 := by
  induction l with
  | nil => exact fun st => ⟨st, rfl⟩
  | cons cf rest ih =>
    intro st
    obtain ⟨v, hv⟩ := hok cf (List.mem_cons_self _ _)
    obtain ⟨st1, h1⟩ := groupStep_isOk row st cf v hv
    obtain ⟨st2, h2⟩ := ih (fun c hc => hok c (List.mem_cons_of_mem _ hc)) st1
    refine ⟨st2, ?_⟩
    rw [groupFields_cons, h1]
    exact h2

lemma groupFields_ts_const (row : Row) :
    ∀ (l : List (String × FieldCfg)) (st st2 : GroupSt),
      groupFields row st l = .ok st2 → (∀ cf ∈ l, cf.2.tag ≠ "timestamp") →
      st2.ts_epoch = st.ts_epoch := by
  intro l
  induction l with
  | nil => intro st st2 h _; injection h with h2; rw [h2]
  | cons cf rest ih =>
    intro st st2 h hl
    rcases hs : groupStep row st cf with e | st1
    · rw [groupFields_cons, hs] at h
      exact absurd h (by simp)
    · rw [groupFields_cons, hs] at h
      obtain ⟨v, _, hts, _⟩ := groupStep_cases row st cf st1 hs
      rw [ih st1 st2 h (fun c hc => hl c (List.mem_cons_of_mem _ hc)), hts,
        if_neg (hl cf (List.mem_cons_self _ _))]

/-- First-sight accumulation of group keys along a field list. -/
def seenKeys (acc : List (Option String)) : List (String × FieldCfg) → List (Option String)
  | [] => acc
  | cf :: rest => seenKeys (if cf.2.turbine_id ∈ acc then acc else acc ++ [cf.2.turbine_id]) rest

lemma groupFields_keys (row : Row) :
    ∀ (l : List (String × FieldCfg)) (st st2 : GroupSt),
      groupFields row st l = .ok st2 →
      st2.buckets.map Prod.fst = seenKeys (st.buckets.map Prod.fst) l := by
  intro l
  induction l with
  | nil => intro st st2 h; injection h with h2; rw [h2]; rfl
  | cons cf rest ih =>
    intro st st2 h
    rcases hs : groupStep row st cf with e | st1
    · rw [groupFields_cons, hs] at h
      exact absurd h (by simp)
    · rw [groupFields_cons, hs] at h
      obtain ⟨v, _, _, hbk⟩ := groupStep_cases row st cf st1 hs
      have hkeys : st1.buckets.map Prod.fst =
          (if cf.2.turbine_id ∈ st.buckets.map Prod.fst then st.buckets.map Prod.fst
           else st.buckets.map Prod.fst ++ [cf.2.turbine_id]) := by
        rw [hbk, bucketInsert_keys]
        by_cases hmem : cf.2.turbine_id ∈ st.buckets.map Prod.fst
        · rw [if_pos hmem, if_pos hmem]
        · rw [if_neg hmem, if_neg hmem, List.map_append]
          rfl
      rw [ih st1 st2 h, hkeys]
      rfl

lemma groupFields_preserve (row : Row) :
    ∀ (l : List (String × FieldCfg)) (st st2 : GroupSt) (g : String) (p : Payload) (w : Val),
      groupFields row st l = .ok st2 →
      assocGet st.buckets (some g) = some p → assocGet p "timestamp" = some w →
      (∀ cf ∈ l, cf.2.tag = "timestamp" → cf.2.turbine_id ≠ some g) →
      ∃ p2, assocGet st2.buckets (some g) = some p2 ∧ assocGet p2 "timestamp" = some w := by
  intro l
  induction l with
  | nil =>
    intro st st2 g p w h hg hw _
    injection h with h2
    exact ⟨p, by rw [← h2]; exact hg, hw⟩
  | cons cf rest ih =>
    intro st st2 g p w h hg hw hl
    rcases hs : groupStep row st cf with e | st1
    · rw [groupFields_cons, hs] at h
      exact absurd h (by simp)
    · rw [groupFields_cons, hs] at h
      obtain ⟨v, _, _, hbk⟩ := groupStep_cases row st cf st1 hs
      have hB : assocGet (if cf.2.turbine_id ∈ st.buckets.map Prod.fst then st.buckets
          else st.buckets ++ [(cf.2.turbine_id,
            [("turbine_id", tidVal cf.2.turbine_id),
             ("timestamp", if cf.2.tag = "timestamp" then v else st.ts_epoch)])]) (some g) = some p := by
        by_cases hmem : cf.2.turbine_id ∈ st.buckets.map Prod.fst
        · rw [if_pos hmem]; exact hg
        · rw [if_neg hmem]
          rw [assocGet_append_left _ _ _ (assocGet_mem_of_some _ _ _ hg)]
          exact hg
      by_cases htid : cf.2.turbine_id = some g
      · have htag : cf.2.tag ≠ "timestamp" := fun htag => hl cf (List.mem_cons_self _ _) htag htid
        have hg1 : assocGet st1.buckets (some g) = some (dictInsert p cf.2.tag v) := by
          rw [htid] at hB
          rw [hbk, htid, bucketInsert_get_self, hB]
          rfl
        have hw1 : assocGet (dictInsert p cf.2.tag v) "timestamp" = some w := by
          rw [dictInsert_get_ne _ _ _ _ (fun he => htag he.symm)]
          exact hw
        exact ih st1 st2 g _ w h hg1 hw1 (fun c hc => hl c (List.mem_cons_of_mem _ hc))
      · have hg1 : assocGet st1.buckets (some g) = some p := by
          rw [hbk, bucketInsert_get_ne _ _ _ _ _ (fun he => htid he.symm)]
          exact hB
        exact ih st1 st2 g p w h hg1 hw (fun c hc => hl c (List.mem_cons_of_mem _ hc))

lemma groupFields_not_created (row : Row) :
    ∀ (l : List (String × FieldCfg)) (st st2 : GroupSt) (g : String),
      groupFields row st l = .ok st2 →
      assocGet st.buckets (some g) = none →
      (∀ cf ∈ l, cf.2.turbine_id ≠ some g) →
      assocGet st2.buckets (some g) = none := by
  intro l
  induction l with
  | nil =>
    intro st st2 g h hg _
    injection h with h2
    rw [← h2]
    exact hg
  | cons cf rest ih =>
    intro st st2 g h hg hl
    rcases hs : groupStep row st cf with e | st1
    · rw [groupFields_cons, hs] at h
      exact absurd h (by simp)
    · rw [groupFields_cons, hs] at h
      obtain ⟨v, _, _, hbk⟩ := groupStep_cases row st cf st1 hs
      have htid : cf.2.turbine_id ≠ some g := hl cf (List.mem_cons_self _ _)
      have hg1 : assocGet st1.buckets (some g) = none := by
        rw [hbk, bucketInsert_get_ne _ _ _ _ _ (fun he => htid he.symm)]
        by_cases hmem : cf.2.turbine_id ∈ st.buckets.map Prod.fst
        · rw [if_pos hmem]; exact hg
        · rw [if_neg hmem]
          rw [assocGet_append_right _ _ _ ((assocGet_eq_none _ _).1 hg)]
          exact if_neg htid
      exact ih st1 st2 g h hg1 (fun c hc => hl c (List.mem_cons_of_mem _ hc))

lemma parse_value_int (cfg : FieldCfg) (hc : cfg.type = "int") (r : Rval) :
    parse_value (some r) cfg =
      match pyIntOfRval r with
      | some n => Except.ok (Val.vint n)
      | none => Except.error Err.coercionError := by
  obtain ⟨t, tg, tid, tz, d⟩ := cfg
  dsimp only at hc
  subst hc
  rfl

lemma parse_value_duration (cfg : FieldCfg) (hc : cfg.type = "duration") (r : Rval) :
    parse_value (some r) cfg =
      match pySplitColon (pystr r) with
      | p0 :: p1 :: p2 :: _ =>
        match pyIntOfString p0, pyIntOfString p1, pyFloatOfString p2 with
        | some h, some mi, some se =>
          Except.ok (Val.vfloat ((h : ℚ) * 3600 + (mi : ℚ) * 60 + se))
        | _, _, _ => Except.error Err.coercionError
      | _ => Except.error Err.coercionError := by
  obtain ⟨t, tg, tid, tz, d⟩ := cfg
  dsimp only at hc
  subst hc
  rfl

/-- C4: a blank/missing cell yields `field_spec.default` verbatim, with
no type conversion applied: in particular a string default `"N/A"` on an
`int`-typed field stays the string `"N/A"`, and an absent default yields
null. -/
theorem claim_C4_blank_yields_default :
    (∀ cfg : FieldCfg, parse_value none cfg = .ok cfg.default) ∧
    parse_value none { type := "int", tag := "x", default := .vstr "N/A" } = .ok (.vstr "N/A") ∧
    parse_value none { type := "int", tag := "x" } = .ok .vnull :=
  ⟨fun _ => rfl, rfl, rfl⟩

/-- C7 counterexample: the claim says a non-integral value fails with
CoercionError, but on the fractional float cell `3.7` the code's
`int(raw)` truncates toward zero and succeeds with `3`. -/
theorem claim_C7_counterexample :
    parse_value (some (.rfloat (Rat.mk' 37 10))) { type := "int", tag := "power" } =
      .ok (.vint 3) ∧ (Rat.mk' 37 10 : ℚ).den ≠ 1 :=
  ⟨by decide, by decide⟩

/-- C7 (amended): for `int`-typed coercion, an integer cell is returned
as is, a string cell is parsed as an integer literal (failing with
CoercionError when it is not one, e.g. `"3.7"`), and a fractional float
cell is truncated toward zero rather than failing. -/
theorem claim_C7_corrected (cfg : FieldCfg) (hc : cfg.type = "int") :
    (∀ n : Int, parse_value (some (.rint n)) cfg = .ok (.vint n)) ∧
    (∀ q : ℚ, parse_value (some (.rfloat q)) cfg = .ok (.vint (pyTruncToInt q))) ∧
    (∀ s n, pyIntOfString s = some n → parse_value (some (.rstr s)) cfg = .ok (.vint n)) ∧
    (∀ s, pyIntOfString s = none → parse_value (some (.rstr s)) cfg = .error .coercionError) := by
  refine ⟨fun n => ?_, fun q => ?_, fun s n h => ?_, fun s h => ?_⟩
  · rw [parse_value_int cfg hc]
    rfl
  · rw [parse_value_int cfg hc]
    rfl
  · rw [parse_value_int cfg hc]
    simp only [pyIntOfRval]
    rw [h]
  · rw [parse_value_int cfg hc]
    simp only [pyIntOfRval]
    rw [h]

/-- C7 witness: the amended theorem applied to a concrete integer cell. -/
theorem claim_C7_corrected_witness :
    parse_value (some (.rint 42)) { type := "int", tag := "x" } = .ok (.vint 42) :=
  (claim_C7_corrected { type := "int", tag := "x" } rfl).1 42

/-- C9: `sent_time` is computed as `utcnow()` (a naive UTC wall-clock
reading) passed through `timestamp()` (which interprets a naive datetime
as local time), so with a local timezone at UTC+1 and true epoch instant
0 the header carries `sent_time = -3600000`, not the epoch instant — the
claim's "milliseconds since the UNIX epoch regardless of the process's
local timezone" only holds when the local offset is zero. -/
theorem claim_C9_code_bug :
    make_header "A.B" "1" { epoch_ms := 0, local_offset_ms := 3600000 } "u" =
      .ok { stream := "A", function := "B", message_id := "u", protocol_version := "1",
            sent_time := -3600000 } ∧
    py_utcnow_timestamp_ms { epoch_ms := 0, local_offset_ms := 3600000 } ≠ 0 :=
  ⟨by decide, by decide⟩

/-- C8 counterexample: the claim says an empty component such as `"A."`
fails with ConfigurationError, but `"A.".split('.')` has exactly two
components (`"A"` and `""`) and header construction succeeds with an
empty function id. -/
theorem claim_C8_counterexample :
    make_header "A." "1" { epoch_ms := 0, local_offset_ms := 0 } "u" =
      .ok { stream := "A", function := "", message_id := "u", protocol_version := "1",
            sent_time := 0 } := by decide

/-- C8 (amended): header construction splits `streamSpec` on `"."` and
fails with ConfigurationError exactly when the split does not have two
components (no dot, or more than one dot); the two components are used
as stream and function even when empty. -/
theorem claim_C8_corrected (s v : String) (c : Clock) (u : String) :
    (∀ x y, pySplitDot s = [x, y] →
      make_header s v c u =
        .ok { stream := x, function := y, message_id := u, protocol_version := v,
              sent_time := py_utcnow_timestamp_ms c }) ∧
    ((pySplitDot s).length ≠ 2 → make_header s v c u = .error .configurationError) := by
  constructor
  · intro x y hxy
    unfold make_header
    rw [hxy]
  · intro hlen
    unfold make_header
    rcases hsd : pySplitDot s with _ | ⟨a, _ | ⟨b, _ | ⟨c2, t⟩⟩⟩
    · rfl
    · rfl
    · rw [hsd] at hlen
      simp at hlen
    · rfl

/-- C8 witness: the amended theorem applied to the well-formed spec
`"A.B"`. -/
theorem claim_C8_corrected_witness :
    make_header "A.B" "1" { epoch_ms := 5, local_offset_ms := 2 } "u" =
      .ok { stream := "A", function := "B", message_id := "u", protocol_version := "1",
            sent_time := 3 } :=
  (claim_C8_corrected "A.B" "1" { epoch_ms := 5, local_offset_ms := 2 } "u").1 "A" "B" (by decide)

/-- C6 counterexample: with an unsupported stream but an empty row
sequence, the loop body never runs, so `transform` returns zero messages
without raising — the claim's "fails ... including for an empty row
sequence" is false. -/
theorem claim_C6_counterexample :
    transform env0 { stream := "X.Y", version := "1", fields := [] } [] = .ok [] ∧
    (Except.ok ([] : List Msg) ≠ (Except.error Err.configurationError : Except Err (List Msg))) :=
  ⟨rfl, by decide⟩

/-- C6 (amended): for an unsupported stream identifier, `transform`
fails with ConfigurationError as soon as a row is reached (emitting no
messages), but an empty row sequence produces zero messages without
error, because the stream check sits inside the row loop. -/
theorem claim_C6_corrected (env : Env) (m : Mapping) (rows : List Row)
    (h1 : m.stream ≠ "T1.F01") (h2 : m.stream ≠ "T1.F02") (h3 : m.stream ≠ "T2.F01") :
    (rows ≠ [] → transform env m rows = .error .configurationError) ∧
    transform env m [] = .ok [] := by
  constructor
  · intro hne
    cases rows with
    | nil => exact absurd rfl hne
    | cons r rs =>
      show transformGo env m 0 (r :: rs) = _
      simp only [transformGo]
      rw [if_neg h1, if_neg h2, if_neg h3]
  · rfl

/-- C6 witness: the amended theorem applied to the unsupported stream
`"X.Y"`, with one empty row and with no rows. -/
theorem claim_C6_corrected_witness :
    transform env0 { stream := "X.Y", version := "1", fields := [] } [[]] =
      .error .configurationError ∧
    transform env0 { stream := "X.Y", version := "1", fields := [] } [] = .ok [] :=
  ⟨(claim_C6_corrected env0 { stream := "X.Y", version := "1", fields := [] } [[]]
      (by decide) (by decide) (by decide)).1 (by simp),
   (claim_C6_corrected env0 { stream := "X.Y", version := "1", fields := [] } []
      (by decide) (by decide) (by decide)).2⟩

/-- C5 counterexample: `"1:2:3:4"` has four colon-separated components,
so the claim says coercion must fail, but the code reads only
`parts[0..2]` and succeeds. -/
theorem claim_C5_counterexample :
    (pySplitColon "1:2:3:4").length = 4 ∧
    ∃ q, parse_value (some (.rstr "1:2:3:4")) { type := "duration", tag := "dur" } =
      .ok (.vfloat q) :=
  ⟨by decide, ⟨_, rfl⟩⟩

/-- C5 (amended): duration coercion on a string cell returns
`hours*3600 + minutes*60 + seconds` computed from the first three
colon-separated components (any further components are ignored), and
fails with CoercionError exactly when there are fewer than three
components or one of the first three numeric parts is invalid. -/
theorem claim_C5_corrected (cfg : FieldCfg) (hc : cfg.type = "duration") (s : String) :
    (∀ p0 p1 p2 ps h mi se, pySplitColon s = p0 :: p1 :: p2 :: ps →
        pyIntOfString p0 = some h → pyIntOfString p1 = some mi → pyFloatOfString p2 = some se →
        parse_value (some (.rstr s)) cfg =
          .ok (.vfloat ((h : ℚ) * 3600 + (mi : ℚ) * 60 + se))) ∧
    ((pySplitColon s).length < 3 → parse_value (some (.rstr s)) cfg = .error .coercionError) ∧
    (∀ p0 p1 p2 ps, pySplitColon s = p0 :: p1 :: p2 :: ps →
        (pyIntOfString p0 = none ∨ pyIntOfString p1 = none ∨ pyFloatOfString p2 = none) →
        parse_value (some (.rstr s)) cfg = .error .coercionError) := by
  have parts : ∀ p0 p1 p2 ps, pySplitColon s = p0 :: p1 :: p2 :: ps →
      parse_value (some (.rstr s)) cfg =
        match pyIntOfString p0, pyIntOfString p1, pyFloatOfString p2 with
        | some h, some mi, some se =>
          Except.ok (Val.vfloat ((h : ℚ) * 3600 + (mi : ℚ) * 60 + se))
        | _, _, _ => Except.error Err.coercionError := by
    intro p0 p1 p2 ps hsp
    rw [parse_value_duration cfg hc]
    simp only [pystr]
    rw [hsp]
  refine ⟨?_, ?_, ?_⟩
  · intro p0 p1 p2 ps h mi se hsp h0 h1 h2
    rw [parts p0 p1 p2 ps hsp, h0, h1, h2]
  · intro hlen
    rw [parse_value_duration cfg hc]
    simp only [pystr]
    rcases hsp : pySplitColon s with _ | ⟨a, _ | ⟨b, _ | ⟨c2, t⟩⟩⟩
    · rfl
    · rfl
    · rfl
    · rw [hsp] at hlen
      simp only [List.length_cons] at hlen
      omega
  · intro p0 p1 p2 ps hsp hbad
    rw [parts p0 p1 p2 ps hsp]
    rcases h0 : pyIntOfString p0 with _ | n0
    · rfl
    · rcases h1 : pyIntOfString p1 with _ | n1
      · rfl
      · rcases h2 : pyFloatOfString p2 with _ | q2
        · rfl
        · rcases hbad with hb | hb | hb
          · rw [h0] at hb; exact Option.noConfusion hb
          · rw [h1] at hb; exact Option.noConfusion hb
          · rw [h2] at hb; exact Option.noConfusion hb

/-- C5 witness: the amended theorem applied to `"1:02:03.500"`, giving
`3723.5` seconds, as the spec's example demands. -/
theorem claim_C5_corrected_witness :
    parse_value (some (.rstr "1:02:03.500")) { type := "duration", tag := "dur" } =
      .ok (.vfloat (7447 / 2)) := by
  have hse : pyFloatOfString "03.500" = some ((7 : ℚ) / 2) := by
    have h : pyFloatParts (pyStrip "03.500".data) = some (1, 3, 500, 3, 0) := by decide
    show (pyFloatParts (pyStrip "03.500".data)).map ratOfParts = _
    rw [h]
    norm_num [ratOfParts]
  have happ := (claim_C5_corrected { type := "duration", tag := "dur" } rfl "1:02:03.500").1
    "1" "02" "03.500" [] 1 2 ((7 : ℚ) / 2) (by decide) (by decide) (by decide) hse
  rw [happ]
  exact congrArg (fun q => (Except.ok (Val.vfloat q) : Except Err Val)) (by push_cast; norm_num)

lemma flatFieldsT1F02_cons (row : Row) (p : Payload) (cf : String × FieldCfg)
    (rest : List (String × FieldCfg)) :
    flatFieldsT1F02 row p (cf :: rest) =
      match parse_value (getRaw row cf.1) cf.2 with
      | Except.error e => Except.error e
      | Except.ok v => flatFieldsT1F02 row (dictInsert p cf.2.tag v) rest := rfl

lemma flatFieldsT2F01_cons (row : Row) (p : Payload) (cf : String × FieldCfg)
    (rest : List (String × FieldCfg)) :
    flatFieldsT2F01 row p (cf :: rest) =
      match parse_value (getRaw row cf.1) cf.2 with
      | Except.error e => Except.error e
      | Except.ok v => flatFieldsT2F01 row (dictInsert p cf.2.tag v) rest := rfl

/-- The two flat field loops are extensionally equal. -/
lemma flat_loops_eq (row : Row) :
    ∀ (fields : List (String × FieldCfg)) (p : Payload),
      flatFieldsT1F02 row p fields = flatFieldsT2F01 row p fields := by
  intro fields
  induction fields with
  | nil => intro p; rfl
  | cons cf rest ih =>
    intro p
    rw [flatFieldsT1F02_cons, flatFieldsT2F01_cons]
    cases parse_value (getRaw row cf.1) cf.2 with
    | error e => rfl
    | ok v => exact ih _

/-- The header-independent content of a message: its payload plus the
header components other than `stream`/`function`. -/
def msgCore (ms : Msg) : Payload × String × String × Int :=
  (ms.payload, ms.header.message_id, ms.header.protocol_version, ms.header.sent_time)

lemma transformGo_flat_eq (env : Env) (ver : String) (fields : List (String × FieldCfg)) :
    ∀ (rows : List Row) (idx : Nat),
      (transformGo env { stream := "T1.F02", version := ver, fields := fields } idx rows).map
          (List.map msgCore) =
        (transformGo env { stream := "T2.F01", version := ver, fields := fields } idx rows).map
          (List.map msgCore) := by
  intro rows
  induction rows with
  | nil => intro idx; rfl
  | cons row rest ih =>
    intro idx
    have hL : transformGo env { stream := "T1.F02", version := ver, fields := fields } idx
        (row :: rest) =
        (match flatFieldsT1F02 row [] fields with
         | Except.error e => Except.error e
         | Except.ok p =>
           match transformGo env { stream := "T1.F02", version := ver, fields := fields }
               (idx + 1) rest with
           | Except.error e => Except.error e
           | Except.ok more =>
             Except.ok ({ header := { stream := "T1", function := "F02",
                                      message_id := env.uuid idx, protocol_version := ver,
                                      sent_time := py_utcnow_timestamp_ms (env.clock idx) },
                          payload := p } :: more)) := rfl
    have hR : transformGo env { stream := "T2.F01", version := ver, fields := fields } idx
        (row :: rest) =
        (match flatFieldsT2F01 row [] fields with
         | Except.error e => Except.error e
         | Except.ok p =>
           match transformGo env { stream := "T2.F01", version := ver, fields := fields }
               (idx + 1) rest with
           | Except.error e => Except.error e
           | Except.ok more =>
             Except.ok ({ header := { stream := "T2", function := "F01",
                                      message_id := env.uuid idx, protocol_version := ver,
                                      sent_time := py_utcnow_timestamp_ms (env.clock idx) },
                          payload := p } :: more)) := rfl
    rw [hL, hR, ← flat_loops_eq row fields []]
    cases flatFieldsT1F02 row [] fields with
    | error e => rfl
    | ok p =>
      have ihI := ih (idx + 1)
      rcases hA : transformGo env { stream := "T1.F02", version := ver, fields := fields }
          (idx + 1) rest with eA | moreA
      · rcases hB : transformGo env { stream := "T2.F01", version := ver, fields := fields }
            (idx + 1) rest with eB | moreB
        · rw [hA, hB] at ihI
          injection ihI with he
          rw [he]
        · rw [hA, hB] at ihI
          exact absurd ihI (by simp [Except.map])
      · rcases hB : transformGo env { stream := "T2.F01", version := ver, fields := fields }
            (idx + 1) rest with eB | moreB
        · rw [hA, hB] at ihI
          exact absurd ihI (by simp [Except.map])
        · have he : List.map msgCore moreA = List.map msgCore moreB := by
            rw [hA, hB] at ihI
            simpa [Except.map] using ihI
          simp only [Except.map, List.map_cons]
          rw [he]
          rfl

/-- C10: the `T1.F02` and `T2.F01` branches of `transform` compute
identical payloads on the same fields and rows, and their messages agree
on everything except the header's `stream`/`function` components. -/
theorem claim_C10_flat_branches_equal :
    (∀ (row : Row) (p : Payload) (fields : List (String × FieldCfg)),
      flatFieldsT1F02 row p fields = flatFieldsT2F01 row p fields) ∧
    (∀ (env : Env) (ver : String) (fields : List (String × FieldCfg)) (rows : List Row),
      (transform env { stream := "T1.F02", version := ver, fields := fields } rows).map
          (List.map msgCore) =
        (transform env { stream := "T2.F01", version := ver, fields := fields } rows).map
          (List.map msgCore)) :=
  ⟨fun row p fields => flat_loops_eq row fields p,
   fun env ver fields rows => transformGo_flat_eq env ver fields rows 0⟩

lemma flatT1F02_ok (row : Row) :
    ∀ (fields : List (String × FieldCfg)) (p0 : Payload),
      (∀ cf ∈ fields, ∃ v, parse_value (getRaw row cf.1) cf.2 = .ok v) →
      ∃ p, flatFieldsT1F02 row p0 fields = .ok p := by
  intro fields
  induction fields with
  | nil => exact fun p0 _ => ⟨p0, rfl⟩
  | cons cf rest ih =>
    intro p0 hok
    obtain ⟨v, hv⟩ := hok cf (List.mem_cons_self _ _)
    obtain ⟨p, hp⟩ := ih (dictInsert p0 cf.2.tag v) (fun c hc => hok c (List.mem_cons_of_mem _ hc))
    refine ⟨p, ?_⟩
    rw [flatFieldsT1F02_cons, hv]
    exact hp

lemma transformGo_flat12 (env : Env) (ver : String) (fields : List (String × FieldCfg)) :
    ∀ (rows : List Row) (idx : Nat),
      (∀ row ∈ rows, ∀ cf ∈ fields, ∃ v, parse_value (getRaw row cf.1) cf.2 = .ok v) →
      ∃ msgs, transformGo env { stream := "T1.F02", version := ver, fields := fields } idx rows =
          .ok msgs ∧
        msgs.length = rows.length ∧
        ∀ i (h1 : i < msgs.length) (h2 : i < rows.length),
          Except.ok (msgs.get ⟨i, h1⟩).payload = flatFieldsT1F02 (rows.get ⟨i, h2⟩) [] fields := by
  intro rows
  induction rows with
  | nil =>
    intro idx _
    exact ⟨[], rfl, rfl, fun i h1 _ => absurd h1 (by simp)⟩
  | cons row rest ih =>
    intro idx hok
    obtain ⟨p, hp⟩ := flatT1F02_ok row fields []
      (fun cf hcf => hok row (List.mem_cons_self _ _) cf hcf)
    obtain ⟨msgs2, hm2, hlen2, hidx2⟩ := ih (idx + 1)
      (fun r hr cf hcf => hok r (List.mem_cons_of_mem _ hr) cf hcf)
    refine ⟨{ header := { stream := "T1", function := "F02", message_id := env.uuid idx,
                          protocol_version := ver,
                          sent_time := py_utcnow_timestamp_ms (env.clock idx) },
              payload := p } :: msgs2, ?_, ?_, ?_⟩
    · have hunf : transformGo env { stream := "T1.F02", version := ver, fields := fields } idx
          (row :: rest) =
          (match flatFieldsT1F02 row [] fields with
           | Except.error e => Except.error e
           | Except.ok p =>
             match transformGo env { stream := "T1.F02", version := ver, fields := fields }
                 (idx + 1) rest with
             | Except.error e => Except.error e
             | Except.ok more =>
               Except.ok ({ header := { stream := "T1", function := "F02",
                                        message_id := env.uuid idx, protocol_version := ver,
                                        sent_time := py_utcnow_timestamp_ms (env.clock idx) },
                            payload := p } :: more)) := rfl
      rw [hunf, hp, hm2]
    · simp [hlen2]
    · intro i h1 h2
      cases i with
      | zero => exact hp.symm
      | succ j =>
        exact hidx2 j (Nat.lt_of_succ_lt_succ (by simpa using h1))
          (Nat.lt_of_succ_lt_succ (by simpa using h2))

lemma transformGo_flat21 (env : Env) (ver : String) (fields : List (String × FieldCfg)) :
    ∀ (rows : List Row) (idx : Nat),
      (∀ row ∈ rows, ∀ cf ∈ fields, ∃ v, parse_value (getRaw row cf.1) cf.2 = .ok v) →
      ∃ msgs, transformGo env { stream := "T2.F01", version := ver, fields := fields } idx rows =
          .ok msgs ∧
        msgs.length = rows.length ∧
        ∀ i (h1 : i < msgs.length) (h2 : i < rows.length),
          Except.ok (msgs.get ⟨i, h1⟩).payload = flatFieldsT1F02 (rows.get ⟨i, h2⟩) [] fields := by
  intro rows
  induction rows with
  | nil =>
    intro idx _
    exact ⟨[], rfl, rfl, fun i h1 _ => absurd h1 (by simp)⟩
  | cons row rest ih =>
    intro idx hok
    obtain ⟨p, hp⟩ := flatT1F02_ok row fields []
      (fun cf hcf => hok row (List.mem_cons_self _ _) cf hcf)
    obtain ⟨msgs2, hm2, hlen2, hidx2⟩ := ih (idx + 1)
      (fun r hr cf hcf => hok r (List.mem_cons_of_mem _ hr) cf hcf)
    refine ⟨{ header := { stream := "T2", function := "F01", message_id := env.uuid idx,
                          protocol_version := ver,
                          sent_time := py_utcnow_timestamp_ms (env.clock idx) },
              payload := p } :: msgs2, ?_, ?_, ?_⟩
    · have hunf : transformGo env { stream := "T2.F01", version := ver, fields := fields } idx
          (row :: rest) =
          (match flatFieldsT2F01 row [] fields with
           | Except.error e => Except.error e
           | Except.ok p =>
             match transformGo env { stream := "T2.F01", version := ver, fields := fields }
                 (idx + 1) rest with
             | Except.error e => Except.error e
             | Except.ok more =>
               Except.ok ({ header := { stream := "T2", function := "F01",
                                        message_id := env.uuid idx, protocol_version := ver,
                                        sent_time := py_utcnow_timestamp_ms (env.clock idx) },
                            payload := p } :: more)) := rfl
      rw [hunf, ← flat_loops_eq row fields [], hp, hm2]
    · simp [hlen2]
    · intro i h1 h2
      cases i with
      | zero => exact hp.symm
      | succ j =>
        exact hidx2 j (Nat.lt_of_succ_lt_succ (by simpa using h1))
          (Nat.lt_of_succ_lt_succ (by simpa using h2))

/-- C3: for the flat streams `T1.F02` and `T2.F01`, when no coercion
fails, `transform` emits exactly one message per row, in row order: the
i-th message's payload is the flat payload of the i-th row. -/
theorem claim_C3_flat_one_message_per_row (env : Env) (m : Mapping) (rows : List Row)
    (hs : m.stream = "T1.F02" ∨ m.stream = "T2.F01")
    (hok : ∀ row ∈ rows, ∀ cf ∈ m.fields, ∃ v, parse_value (getRaw row cf.1) cf.2 = .ok v) :
    ∃ msgs, transform env m rows = .ok msgs ∧ msgs.length = rows.length ∧
      ∀ i (h1 : i < msgs.length) (h2 : i < rows.length),
        Except.ok (msgs.get ⟨i, h1⟩).payload = flatFieldsT1F02 (rows.get ⟨i, h2⟩) [] m.fields := by
  obtain ⟨ms, mv, mf⟩ := m
  dsimp only at hs hok ⊢
  rcases hs with hs | hs
  · subst hs
    exact transformGo_flat12 env mv mf rows 0 hok
  · subst hs
    exact transformGo_flat21 env mv mf rows 0 hok

/-- C3 witness: the theorem applied to the spec's end-to-end example
(one `T1.F02` row with an int cell and a blank defaulted string cell)
yields exactly one message. -/
theorem claim_C3_witness :
    ∃ msgs, transform env0
      { stream := "T1.F02", version := "1.0",
        fields := [("Code", { type := "int", tag := "alarm_code" }),
                   ("Desc", { type := "string", tag := "description", default := .vstr "" })] }
      [[("Code", some (.rint 42)), ("Desc", none)]] = .ok msgs ∧ msgs.length = 1 := by
  obtain ⟨msgs, h1, h2, _⟩ := claim_C3_flat_one_message_per_row env0
    { stream := "T1.F02", version := "1.0",
      fields := [("Code", { type := "int", tag := "alarm_code" }),
                 ("Desc", { type := "string", tag := "description", default := .vstr "" })] }
    [[("Code", some (.rint 42)), ("Desc", none)]]
    (Or.inl rfl)
    (by
      intro r hr cf hcf
      fin_cases hr
      fin_cases hcf
      · exact ⟨.vint 42, rfl⟩
      · exact ⟨.vstr "", rfl⟩)
  exact ⟨msgs, h1, h2⟩

lemma groupFields_append (row : Row) (st : GroupSt) (l1 l2 : List (String × FieldCfg)) :
    groupFields row st (l1 ++ l2) =
      match groupFields row st l1 with
      | Except.error e => Except.error e
      | Except.ok st1 => groupFields row st1 l2 := by
  induction l1 generalizing st with
  | nil => rfl
  | cons cf rest ih =>
    rw [List.cons_append, groupFields_cons, groupFields_cons]
    cases groupStep row st cf with
    | error e => rfl
    | ok st2 => exact ih st2

lemma groupFields_append_ok (row : Row) (st st1 : GroupSt) (l1 l2 : List (String × FieldCfg))
    (h1 : groupFields row st l1 = .ok st1) :
    groupFields row st (l1 ++ l2) = groupFields row st1 l2 := by
  rw [groupFields_append, h1]

lemma groupFields_cons_ok (row : Row) (st st1 : GroupSt) (cf : String × FieldCfg)
    (rest : List (String × FieldCfg)) (h : groupStep row st cf = .ok st1) :
    groupFields row st (cf :: rest) = groupFields row st1 rest := by
  rw [groupFields_cons, h]

lemma groupRow_eq (fields : List (String × FieldCfg)) (row : Row) (st2 : GroupSt)
    (h : groupFields row { buckets := [], ts_epoch := .vnull } fields = .ok st2) :
    groupRow fields row = .ok st2.buckets := by
  unfold groupRow
  rw [h]

/-- Seeding step: a field of a not-yet-seen group key creates its bucket
pre-filled with the group key and the best-known-so-far timestamp, then
assigns its own tag. -/
lemma groupStep_seed (row : Row) (st : GroupSt) (cf : String × FieldCfg) (g : String) (v : Val)
    (hv : parse_value (getRaw row cf.1) cf.2 = .ok v)
    (htid : cf.2.turbine_id = some g)
    (habsent : assocGet st.buckets (some g) = none)
    (htag : cf.2.tag ≠ "timestamp") :
    ∃ st1, groupStep row st cf = .ok st1 ∧ st1.ts_epoch = st.ts_epoch ∧
      assocGet st1.buckets (some g) =
        some (dictInsert [("turbine_id", Val.vstr g), ("timestamp", st.ts_epoch)] cf.2.tag v) := by
  obtain ⟨st1, h1⟩ := groupStep_isOk row st cf v hv
  obtain ⟨v2, hv2, hts, hbk⟩ := groupStep_cases row st cf st1 h1
  rw [hv] at hv2
  injection hv2 with hvv
  subst hvv
  have hmem : cf.2.turbine_id ∉ st.buckets.map Prod.fst := by
    rw [htid]
    exact (assocGet_eq_none _ _).1 habsent
  refine ⟨st1, h1, ?_, ?_⟩
  · rw [hts, if_neg htag]
  · rw [hbk, if_neg hmem, htid, bucketInsert_get_self,
      assocGet_append_right _ _ _ ((assocGet_eq_none _ _).1 habsent)]
    rw [show assocGet [(some g, [("turbine_id", tidVal (some g)),
        ("timestamp", if cf.2.tag = "timestamp" then v else st.ts_epoch)])] (some g) =
      some [("turbine_id", tidVal (some g)),
        ("timestamp", if cf.2.tag = "timestamp" then v else st.ts_epoch)] from if_pos rfl]
    rw [if_neg htag]
    rfl

/-- A timestamp-tagged field whose group key already has a bucket
overwrites that bucket's `"timestamp"` entry by plain tag assignment. -/
lemma groupStep_ts_existing (row : Row) (st : GroupSt) (cf : String × FieldCfg) (g : String)
    (v : Val) (p : Payload)
    (hv : parse_value (getRaw row cf.1) cf.2 = .ok v)
    (htag : cf.2.tag = "timestamp") (htid : cf.2.turbine_id = some g)
    (hpresent : assocGet st.buckets (some g) = some p) :
    ∃ st1, groupStep row st cf = .ok st1 ∧
      assocGet st1.buckets (some g) = some (dictInsert p "timestamp" v) := by
  obtain ⟨st1, h1⟩ := groupStep_isOk row st cf v hv
  obtain ⟨v2, hv2, hts, hbk⟩ := groupStep_cases row st cf st1 h1
  rw [hv] at hv2
  injection hv2 with hvv
  subst hvv
  have hmem : cf.2.turbine_id ∈ st.buckets.map Prod.fst := by
    rw [htid]
    exact assocGet_mem_of_some _ _ _ hpresent
  refine ⟨st1, h1, ?_⟩
  rw [hbk, if_pos hmem, htid, bucketInsert_get_self, hpresent, htag]
  rfl

lemma groupStep_ts_set (row : Row) (st : GroupSt) (cf : String × FieldCfg) (v : Val)
    (hv : parse_value (getRaw row cf.1) cf.2 = .ok v) (htag : cf.2.tag = "timestamp") :
    ∃ st1, groupStep row st cf = .ok st1 ∧ st1.ts_epoch = v := by
  obtain ⟨st1, h1⟩ := groupStep_isOk row st cf v hv
  obtain ⟨v2, hv2, hts, _⟩ := groupStep_cases row st cf st1 h1
  rw [hv] at hv2
  injection hv2 with hvv
  subst hvv
  exact ⟨st1, h1, by rw [hts, if_pos htag]⟩

lemma seed_ts_entry (g : String) (w : Val) (tag : String) (v : Val) (htag : tag ≠ "timestamp") :
    assocGet (dictInsert [("turbine_id", Val.vstr g), ("timestamp", w)] tag v) "timestamp" =
      some w := by
  rw [dictInsert_get_ne _ _ _ _ (fun he => htag he.symm)]
  rfl

/-- C2 counterexample: the claim says a group seeded before the
timestamp field keeps its null timestamp and is not patched, but when
the timestamp-bearing field belongs to that same group, its ordinary tag
assignment `buckets[tid][tag] = val` does set the group's timestamp:
with fields `power` (group A) then `timestamp` (group A), bucket A ends
with timestamp 99, not null. -/
theorem claim_C2_counterexample :
    groupRow
      [("PowerA", { type := "int", tag := "power", turbine_id := some "A" }),
       ("TimeA", { type := "int", tag := "timestamp", turbine_id := some "A" })]
      [("PowerA", some (.rint 7)), ("TimeA", some (.rint 99))] =
    .ok [(some "A",
          [("turbine_id", .vstr "A"), ("timestamp", .vint 99), ("power", .vint 7)])] ∧
    Val.vint 99 ≠ Val.vnull :=
  ⟨by decide, by decide⟩

/-- C2 (amended): when a group key `g` is first seen (at a non-timestamp
field `cfg0`, after prefix `A` containing no field of `g`), its bucket
is seeded with the timestamp coerced so far: (1) if no timestamp field
occurs up to the seeding and every later timestamp field belongs to a
different group, the payload keeps the null timestamp — no retroactive
patching; (2) if the timestamp field was processed earlier, the payload
carries that coerced timestamp; (3) but if a later timestamp field
belongs to group `g` itself, its ordinary tag assignment does set the
payload's timestamp. -/
theorem claim_C2_corrected (row : Row) (A B : List (String × FieldCfg))
    (cfg0 : String × FieldCfg) (g : String)
    (hg : cfg0.2.turbine_id = some g)
    (hA : ∀ cf ∈ A, cf.2.turbine_id ≠ some g)
    (hg0tag : cfg0.2.tag ≠ "timestamp")
    (hok : ∀ cf ∈ A ++ cfg0 :: B, ∃ v, parse_value (getRaw row cf.1) cf.2 = .ok v) :
    ((∀ cf ∈ A, cf.2.tag ≠ "timestamp") →
      (∀ cf ∈ B, cf.2.tag = "timestamp" → cf.2.turbine_id ≠ some g) →
      ∃ bs p, groupRow (A ++ cfg0 :: B) row = .ok bs ∧
        assocGet bs (some g) = some p ∧ assocGet p "timestamp" = some .vnull) ∧
    (∀ A1 A2 tsf tsv, A = A1 ++ tsf :: A2 → tsf.2.tag = "timestamp" →
      parse_value (getRaw row tsf.1) tsf.2 = .ok tsv →
      (∀ cf ∈ A2, cf.2.tag ≠ "timestamp") →
      (∀ cf ∈ B, cf.2.tag = "timestamp" → cf.2.turbine_id ≠ some g) →
      ∃ bs p, groupRow (A ++ cfg0 :: B) row = .ok bs ∧
        assocGet bs (some g) = some p ∧ assocGet p "timestamp" = some tsv) ∧
    (∀ B1 B2 tsf tsv, B = B1 ++ tsf :: B2 → tsf.2.tag = "timestamp" →
      tsf.2.turbine_id = some g →
      parse_value (getRaw row tsf.1) tsf.2 = .ok tsv →
      (∀ cf ∈ A, cf.2.tag ≠ "timestamp") →
      (∀ cf ∈ B1, cf.2.tag = "timestamp" → cf.2.turbine_id ≠ some g) →
      (∀ cf ∈ B2, cf.2.tag ≠ "timestamp") →
      ∃ bs p, groupRow (A ++ cfg0 :: B) row = .ok bs ∧
        assocGet bs (some g) = some p ∧ assocGet p "timestamp" = some tsv) := by
  have hokA : ∀ cf ∈ A, ∃ v, parse_value (getRaw row cf.1) cf.2 = .ok v :=
    fun c hc => hok c (List.mem_append_left _ hc)
  obtain ⟨v0, hv0⟩ := hok cfg0 (List.mem_append_right _ (List.mem_cons_self _ _))
  have hokB : ∀ cf ∈ B, ∃ v, parse_value (getRaw row cf.1) cf.2 = .ok v :=
    fun c hc => hok c (List.mem_append_right _ (List.mem_cons_of_mem _ hc))
  refine ⟨?_, ?_, ?_⟩
  · intro hAnots hBnots
    obtain ⟨stA, hstA⟩ := groupFields_ok row A hokA { buckets := [], ts_epoch := .vnull }
    have htsA : stA.ts_epoch = .vnull := groupFields_ts_const row A _ stA hstA hAnots
    have habsA : assocGet stA.buckets (some g) = none :=
      groupFields_not_created row A _ stA g hstA rfl hA
    obtain ⟨stG, hstG, htsG, hgetG⟩ := groupStep_seed row stA cfg0 g v0 hv0 hg habsA hg0tag
    obtain ⟨stF, hstF⟩ := groupFields_ok row B hokB stG
    have hentry := seed_ts_entry g stA.ts_epoch cfg0.2.tag v0 hg0tag
    obtain ⟨p2, hget2, hts2⟩ :=
      groupFields_preserve row B stG stF g _ stA.ts_epoch hstF hgetG hentry hBnots
    rw [htsA] at hts2
    have hfull : groupFields row { buckets := [], ts_epoch := .vnull } (A ++ cfg0 :: B) =
        .ok stF := by
      rw [groupFields_append_ok row _ stA A (cfg0 :: B) hstA,
        groupFields_cons_ok row stA stG cfg0 B hstG]
      exact hstF
    exact ⟨stF.buckets, p2, groupRow_eq _ row stF hfull, hget2, hts2⟩
  · intro A1 A2 tsf tsv hA12 htsf hvts hA2nots hBnots
    subst hA12
    have hokA1 : ∀ cf ∈ A1, ∃ v, parse_value (getRaw row cf.1) cf.2 = .ok v :=
      fun c hc => hokA c (List.mem_append_left _ hc)
    have hokA2 : ∀ cf ∈ A2, ∃ v, parse_value (getRaw row cf.1) cf.2 = .ok v :=
      fun c hc => hokA c (List.mem_append_right _ (List.mem_cons_of_mem _ hc))
    obtain ⟨stA1, hstA1⟩ := groupFields_ok row A1 hokA1 { buckets := [], ts_epoch := .vnull }
    obtain ⟨stT, hstT, htsT⟩ := groupStep_ts_set row stA1 tsf tsv hvts htsf
    obtain ⟨stA2, hstA2⟩ := groupFields_ok row A2 hokA2 stT
    have htsA2 : stA2.ts_epoch = tsv := by
      rw [groupFields_ts_const row A2 stT stA2 hstA2 hA2nots, htsT]
    have hAfull : groupFields row { buckets := [], ts_epoch := .vnull } (A1 ++ tsf :: A2) =
        .ok stA2 := by
      rw [groupFields_append_ok row _ stA1 A1 (tsf :: A2) hstA1,
        groupFields_cons_ok row stA1 stT tsf A2 hstT]
      exact hstA2
    have habsA : assocGet stA2.buckets (some g) = none :=
      groupFields_not_created row (A1 ++ tsf :: A2) _ stA2 g hAfull rfl hA
    obtain ⟨stG, hstG, htsG, hgetG⟩ := groupStep_seed row stA2 cfg0 g v0 hv0 hg habsA hg0tag
    obtain ⟨stF, hstF⟩ := groupFields_ok row B hokB stG
    have hentry := seed_ts_entry g stA2.ts_epoch cfg0.2.tag v0 hg0tag
    obtain ⟨p2, hget2, hts2⟩ :=
      groupFields_preserve row B stG stF g _ stA2.ts_epoch hstF hgetG hentry hBnots
    rw [htsA2] at hts2
    have hfull : groupFields row { buckets := [], ts_epoch := .vnull }
        ((A1 ++ tsf :: A2) ++ cfg0 :: B) = .ok stF := by
      rw [groupFields_append_ok row _ stA2 _ _ hAfull,
        groupFields_cons_ok row stA2 stG cfg0 B hstG]
      exact hstF
    exact ⟨stF.buckets, p2, groupRow_eq _ row stF hfull, hget2, hts2⟩
  · intro B1 B2 tsf tsv hB12 htsf htsfg hvts hAnots hB1nots hB2nots
    subst hB12
    have hokB1 : ∀ cf ∈ B1, ∃ v, parse_value (getRaw row cf.1) cf.2 = .ok v :=
      fun c hc => hokB c (List.mem_append_left _ hc)
    have hokB2 : ∀ cf ∈ B2, ∃ v, parse_value (getRaw row cf.1) cf.2 = .ok v :=
      fun c hc => hokB c (List.mem_append_right _ (List.mem_cons_of_mem _ hc))
    obtain ⟨stA, hstA⟩ := groupFields_ok row A hokA { buckets := [], ts_epoch := .vnull }
    have habsA : assocGet stA.buckets (some g) = none :=
      groupFields_not_created row A _ stA g hstA rfl hA
    obtain ⟨stG, hstG, htsG, hgetG⟩ := groupStep_seed row stA cfg0 g v0 hv0 hg habsA hg0tag
    obtain ⟨stB1, hstB1⟩ := groupFields_ok row B1 hokB1 stG
    have hentry := seed_ts_entry g stA.ts_epoch cfg0.2.tag v0 hg0tag
    obtain ⟨p1, hget1, _⟩ :=
      groupFields_preserve row B1 stG stB1 g _ stA.ts_epoch hstB1 hgetG hentry hB1nots
    obtain ⟨stT, hstT, hgetT⟩ := groupStep_ts_existing row stB1 tsf g tsv p1 hvts htsf htsfg hget1
    obtain ⟨stF, hstF⟩ := groupFields_ok row B2 hokB2 stT
    obtain ⟨p2, hget2, hts2⟩ :=
      groupFields_preserve row B2 stT stF g _ tsv hstF hgetT
        (dictInsert_get_self p1 "timestamp" tsv)
        (fun c hc ht => absurd ht (hB2nots c hc))
    have hfull : groupFields row { buckets := [], ts_epoch := .vnull }
        (A ++ cfg0 :: (B1 ++ tsf :: B2)) = .ok stF := by
      rw [groupFields_append_ok row _ stA A _ hstA,
        groupFields_cons_ok row stA stG cfg0 _ hstG,
        groupFields_append_ok row stG stB1 B1 _ hstB1,
        groupFields_cons_ok row stB1 stT tsf B2 hstT]
      exact hstF
    exact ⟨stF.buckets, p2, groupRow_eq _ row stF hfull, hget2, hts2⟩

/-- C2 witness: the amended theorem's part (1) applied to a concrete
row with a `power` field of group A followed by a `timestamp` field of
group B: group A's payload keeps the null timestamp. -/
theorem claim_C2_corrected_witness :
    ∃ bs p, groupRow
        [("PA", { type := "int", tag := "power", turbine_id := some "A" }),
         ("T", { type := "int", tag := "timestamp", turbine_id := some "B" })]
        [("PA", some (.rint 7)), ("T", some (.rint 99))] = .ok bs ∧
      assocGet bs (some "A") = some p ∧ assocGet p "timestamp" = some .vnull := by
  have h := (claim_C2_corrected [("PA", some (.rint 7)), ("T", some (.rint 99))] []
    [("T", { type := "int", tag := "timestamp", turbine_id := some "B" })]
    ("PA", { type := "int", tag := "power", turbine_id := some "A" }) "A"
    rfl (fun _ hc => absurd hc (List.not_mem_nil _)) (by decide)
    (by
      intro cf hcf
      fin_cases hcf
      · exact ⟨.vint 7, rfl⟩
      · exact ⟨.vint 99, rfl⟩)).1
  exact h (fun _ hc => absurd hc (List.not_mem_nil _))
    (by
      intro cf hcf ht
      fin_cases hcf
      decide)

/-- Invariant of the grouped accumulator for the two-group scenario:
every bucket belongs to group `a` or `b`, carries its group key under
`"turbine_id"` and the row timestamp `tsv` under `"timestamp"`, and
holds no tags other than those of its own group's fields. -/
def c1BucketInv (fields : List (String × FieldCfg)) (a b : String) (tsv : Val)
    (bs : Buckets) : Prop :=
  ∀ kp ∈ bs, ∃ g, kp.1 = some g ∧ (g = a ∨ g = b) ∧
    assocGet kp.2 "turbine_id" = some (Val.vstr g) ∧
    assocGet kp.2 "timestamp" = some tsv ∧
    (∀ t ∈ kp.2.map Prod.fst, t = "turbine_id" ∨ t = "timestamp" ∨
      ∃ cf ∈ fields, cf.2.turbine_id = some g ∧ cf.2.tag = t)

lemma groupFields_c1_inv (row : Row) (fields : List (String × FieldCfg)) (a b : String)
    (tsv : Val) :
    ∀ (l : List (String × FieldCfg)) (st : GroupSt),
      (∀ cf ∈ l, cf ∈ fields ∧ (cf.2.turbine_id = some a ∨ cf.2.turbine_id = some b) ∧
        cf.2.tag ≠ "timestamp" ∧ cf.2.tag ≠ "turbine_id" ∧
        ∃ v, parse_value (getRaw row cf.1) cf.2 = .ok v) →
      st.ts_epoch = tsv → c1BucketInv fields a b tsv st.buckets →
      ∃ st2, groupFields row st l = .ok st2 ∧ st2.ts_epoch = tsv ∧
        c1BucketInv fields a b tsv st2.buckets := by
  intro l
  induction l with
  | nil => exact fun st _ hts hinv => ⟨st, rfl, hts, hinv⟩
  | cons cf lrest ih =>
    intro st hl hts hinv
    obtain ⟨hmemf, htid2, htagne, htagne2, v, hv⟩ := hl cf (List.mem_cons_self _ _)
    obtain ⟨g0, hg0ab, hg0⟩ : ∃ g0, (g0 = a ∨ g0 = b) ∧ cf.2.turbine_id = some g0 := by
      rcases htid2 with h | h
      · exact ⟨a, Or.inl rfl, h⟩
      · exact ⟨b, Or.inr rfl, h⟩
    obtain ⟨st1, h1⟩ := groupStep_isOk row st cf v hv
    obtain ⟨v2, hv2, hts1, hbk⟩ := groupStep_cases row st cf st1 h1
    rw [hv] at hv2
    injection hv2 with hvv
    subst hvv
    have hts1' : st1.ts_epoch = tsv := by rw [hts1, if_neg htagne, hts]
    have hseedinv : c1BucketInv fields a b tsv (st.buckets ++ [(cf.2.turbine_id,
        [("turbine_id", tidVal cf.2.turbine_id),
         ("timestamp", if cf.2.tag = "timestamp" then v else st.ts_epoch)])]) := by
      intro kp hkp
      rcases List.mem_append.1 hkp with hkp | hkp
      · exact hinv kp hkp
      · rw [List.mem_singleton] at hkp
        subst hkp
        refine ⟨g0, by rw [hg0], hg0ab, ?_, ?_, ?_⟩
        · rw [hg0]
          rfl
        · show assocGet [("turbine_id", tidVal cf.2.turbine_id),
            ("timestamp", if cf.2.tag = "timestamp" then v else st.ts_epoch)] "timestamp" = some tsv
          rw [if_neg htagne, hts]
          rfl
        · intro t ht
          simp only [List.map_cons, List.map_nil, List.mem_cons, List.not_mem_nil,
            or_false] at ht
          rcases ht with ht | ht
          · exact Or.inl ht
          · exact Or.inr (Or.inl ht)
    have hBinv : c1BucketInv fields a b tsv
        (if cf.2.turbine_id ∈ st.buckets.map Prod.fst then st.buckets
         else st.buckets ++ [(cf.2.turbine_id,
           [("turbine_id", tidVal cf.2.turbine_id),
            ("timestamp", if cf.2.tag = "timestamp" then v else st.ts_epoch)])]) := by
      by_cases hmem : cf.2.turbine_id ∈ st.buckets.map Prod.fst
      · rw [if_pos hmem]; exact hinv
      · rw [if_neg hmem]; exact hseedinv
    have hinv1 : c1BucketInv fields a b tsv st1.buckets := by
      rw [hbk]
      intro kp hkp
      obtain ⟨kp0, hkp0, hf⟩ := List.mem_map.1 hkp
      obtain ⟨g, hg1, hgab, hgtu, hgts, hgkeys⟩ := hBinv kp0 hkp0
      by_cases hc : kp0.1 = cf.2.turbine_id
      · rw [if_pos hc] at hf
        subst hf
        refine ⟨g, hg1, hgab, ?_, ?_, ?_⟩
        · show assocGet (dictInsert kp0.2 cf.2.tag v) "turbine_id" = some (Val.vstr g)
          rw [dictInsert_get_ne _ _ _ _ (fun he => htagne2 he.symm)]
          exact hgtu
        · show assocGet (dictInsert kp0.2 cf.2.tag v) "timestamp" = some tsv
          rw [dictInsert_get_ne _ _ _ _ (fun he => htagne he.symm)]
          exact hgts
        · intro t ht
          rcases dictInsert_keys_subset _ _ _ _ ht with h2 | h2
          · exact hgkeys t h2
          · subst h2
            exact Or.inr (Or.inr ⟨cf, hmemf, by rw [← hc]; exact hg1, rfl⟩)
      · rw [if_neg hc] at hf
        subst hf
        exact ⟨g, hg1, hgab, hgtu, hgts, hgkeys⟩
    obtain ⟨st2, h2, hts2, hinv2⟩ :=
      ih st1 (fun c hc => hl c (List.mem_cons_of_mem _ hc)) hts1' hinv1
    exact ⟨st2, by rw [groupFields_cons_ok row st st1 cf lrest h1]; exact h2, hts2, hinv2⟩

lemma seenKeys_cons (acc : List (Option String)) (cf : String × FieldCfg)
    (l : List (String × FieldCfg)) :
    seenKeys acc (cf :: l) =
      seenKeys (if cf.2.turbine_id ∈ acc then acc else acc ++ [cf.2.turbine_id]) l := rfl

lemma seenKeys_stable (x y : Option String) :
    ∀ l : List (String × FieldCfg),
      (∀ cf ∈ l, cf.2.turbine_id = x ∨ cf.2.turbine_id = y) → seenKeys [x, y] l = [x, y] := by
  intro l
  induction l with
  | nil => intro _; rfl
  | cons cf rest ih =>
    intro hl
    rw [seenKeys_cons, if_pos (by
      rcases hl cf (List.mem_cons_self _ _) with h | h
      · rw [h]; exact List.mem_cons_self _ _
      · rw [h]; exact List.mem_cons_of_mem _ (List.mem_cons_self _ _))]
    exact ih (fun c hc => hl c (List.mem_cons_of_mem _ hc))

lemma seenKeys_pair (x y : Option String) (hxy : x ≠ y) :
    ∀ l : List (String × FieldCfg),
      (∀ cf ∈ l, cf.2.turbine_id = x ∨ cf.2.turbine_id = y) →
      (∃ cf ∈ l, cf.2.turbine_id = y) → seenKeys [x] l = [x, y] := by
  intro l
  induction l with
  | nil =>
    intro _ hex
    obtain ⟨c, hc, _⟩ := hex
    exact absurd hc (List.not_mem_nil _)
  | cons cf rest ih =>
    intro hl hex
    rcases hl cf (List.mem_cons_self _ _) with h | h
    · rw [seenKeys_cons, if_pos (by rw [h]; exact List.mem_cons_self _ _)]
      refine ih (fun c hc => hl c (List.mem_cons_of_mem _ hc)) ?_
      obtain ⟨c, hc, hcy⟩ := hex
      rcases List.mem_cons.1 hc with rfl | hc
      · rw [h] at hcy
        exact absurd hcy hxy
      · exact ⟨c, hc, hcy⟩
    · rw [seenKeys_cons, if_neg (by
        rw [h, List.mem_singleton]
        exact fun he => hxy he.symm)]
      rw [h]
      exact seenKeys_stable x y rest (fun c hc => hl c (List.mem_cons_of_mem _ hc))

lemma bucketInsert_singleton_self (k : Option String) (p : Payload) (tag : String) (v : Val) :
    bucketInsert [(k, p)] k tag v = [(k, dictInsert p tag v)] := by
  simp [bucketInsert]

/-- The first field of the row is the timestamp field of group `a`: it
sets `ts_epoch`, seeds bucket `a` with that timestamp and re-assigns the
same value under its own tag. -/
lemma groupStep_first_ts (row : Row) (c0 : String) (f0 : FieldCfg) (a : String) (tsv : Val)
    (htsv : parse_value (getRaw row c0) f0 = .ok tsv)
    (h0tag : f0.tag = "timestamp") (h0tid : f0.turbine_id = some a) :
    groupStep row { buckets := [], ts_epoch := .vnull } (c0, f0) =
      .ok { buckets := [(some a, [("turbine_id", Val.vstr a), ("timestamp", tsv)])],
            ts_epoch := tsv } := by
  obtain ⟨st1, h1⟩ :=
    groupStep_isOk row { buckets := [], ts_epoch := .vnull } (c0, f0) tsv htsv
  obtain ⟨v2, hv2, hts, hbk⟩ :=
    groupStep_cases row { buckets := [], ts_epoch := .vnull } (c0, f0) st1 h1
  rw [htsv] at hv2
  injection hv2 with hvv
  subst hvv
  have hts' : st1.ts_epoch = tsv := by
    rw [hts]
    exact if_pos h0tag
  have hbk' : st1.buckets = [(some a, [("turbine_id", Val.vstr a), ("timestamp", tsv)])] := by
    rw [hbk]
    dsimp only [List.map_nil]
    rw [if_neg (List.not_mem_nil _), h0tid, if_pos h0tag, List.nil_append, h0tag,
      bucketInsert_singleton_self]
    rfl
  rw [h1]
  cases st1 with
  | mk bk te =>
    dsimp only at hts' hbk'
    rw [hts', hbk']

lemma emitBuckets_T1F01 (env : Env) (ver : String) :
    ∀ (bs : Buckets) (idx : Nat), ∃ msgs, emitBuckets env "T1.F01" ver idx bs = .ok msgs ∧
      msgs.map Msg.payload = bs.map Prod.snd := by
  intro bs
  induction bs with
  | nil => exact fun _ => ⟨[], rfl, rfl⟩
  | cons kp rest ih =>
    obtain ⟨k, p⟩ := kp
    intro idx
    obtain ⟨msgs, hm, hmap⟩ := ih (idx + 1)
    refine ⟨{ header := { stream := "T1", function := "F01", message_id := env.uuid idx,
                          protocol_version := ver,
                          sent_time := py_utcnow_timestamp_ms (env.clock idx) },
              payload := p } :: msgs, ?_, ?_⟩
    · have hunf : emitBuckets env "T1.F01" ver idx ((k, p) :: rest) =
          (match emitBuckets env "T1.F01" ver (idx + 1) rest with
           | Except.error e => Except.error e
           | Except.ok more =>
             Except.ok ({ header := { stream := "T1", function := "F01",
                                      message_id := env.uuid idx, protocol_version := ver,
                                      sent_time := py_utcnow_timestamp_ms (env.clock idx) },
                          payload := p } :: more)) := rfl
      rw [hunf, hm]
    · simp only [List.map_cons, hmap]

/-- C1: for the grouped stream `T1.F01`, a row with readings for two
distinct group keys `a` and `b`, the timestamp field (of group `a`)
declared first, yields exactly two messages; both payloads carry the
same coerced timestamp, each carries its own group key under
`"turbine_id"`, and each contains only its own group's field tags plus
the shared `"turbine_id"` and `"timestamp"` entries. -/
theorem claim_C1_grouped_two_messages (env : Env) (ver : String) (row : Row)
    (c0 : String) (f0 : FieldCfg) (rest : List (String × FieldCfg)) (a b : String) (tsv : Val)
    (h0tag : f0.tag = "timestamp") (h0tid : f0.turbine_id = some a) (hab : a ≠ b)
    (hrest_tid : ∀ cf ∈ rest, cf.2.turbine_id = some a ∨ cf.2.turbine_id = some b)
    (hb : ∃ cf ∈ rest, cf.2.turbine_id = some b)
    (hrest_tag : ∀ cf ∈ rest, cf.2.tag ≠ "timestamp" ∧ cf.2.tag ≠ "turbine_id")
    (htsv : parse_value (getRaw row c0) f0 = .ok tsv)
    (hok : ∀ cf ∈ rest, ∃ v, parse_value (getRaw row cf.1) cf.2 = .ok v) :
    ∃ msgs, transform env { stream := "T1.F01", version := ver, fields := (c0, f0) :: rest }
        [row] = .ok msgs ∧ msgs.length = 2 ∧
      ∀ msg ∈ msgs, ∃ g, (g = a ∨ g = b) ∧
        assocGet msg.payload "turbine_id" = some (.vstr g) ∧
        assocGet msg.payload "timestamp" = some tsv ∧
        (∀ t ∈ msg.payload.map Prod.fst, t = "turbine_id" ∨ t = "timestamp" ∨
          ∃ cf ∈ ((c0, f0) :: rest), cf.2.turbine_id = some g ∧ cf.2.tag = t) := by
  have hstep := groupStep_first_ts row c0 f0 a tsv htsv h0tag h0tid
  have hinit : c1BucketInv ((c0, f0) :: rest) a b tsv
      [(some a, [("turbine_id", Val.vstr a), ("timestamp", tsv)])] := by
    intro kp hkp
    rw [List.mem_singleton] at hkp
    subst hkp
    refine ⟨a, rfl, Or.inl rfl, rfl, rfl, ?_⟩
    intro t ht
    simp only [List.map_cons, List.map_nil, List.mem_cons, List.not_mem_nil, or_false] at ht
    rcases ht with ht | ht
    · exact Or.inl ht
    · exact Or.inr (Or.inl ht)
  obtain ⟨st2, h2, hts2, hinv2⟩ := groupFields_c1_inv row ((c0, f0) :: rest) a b tsv rest
    { buckets := [(some a, [("turbine_id", Val.vstr a), ("timestamp", tsv)])], ts_epoch := tsv }
    (fun cf hcf => ⟨List.mem_cons_of_mem _ hcf, hrest_tid cf hcf, (hrest_tag cf hcf).1,
      (hrest_tag cf hcf).2, hok cf hcf⟩)
    rfl hinit
  have hfull : groupFields row { buckets := [], ts_epoch := .vnull } ((c0, f0) :: rest) =
      .ok st2 := by
    rw [groupFields_cons_ok row _ _ (c0, f0) rest hstep]
    exact h2
  have hkeys : st2.buckets.map Prod.fst = [some a, some b] := by
    rw [groupFields_keys row ((c0, f0) :: rest) _ st2 hfull]
    show seenKeys [] ((c0, f0) :: rest) = _
    rw [seenKeys_cons, if_neg (List.not_mem_nil _), List.nil_append,
      show ((c0, f0).2 : FieldCfg).turbine_id = some a from h0tid]
    exact seenKeys_pair (some a) (some b) (fun he => hab (Option.some.inj he)) rest
      hrest_tid hb
  obtain ⟨msgs, hm, hmap⟩ := emitBuckets_T1F01 env ver st2.buckets 0
  have hblen : st2.buckets.length = 2 := by
    have h3 := congrArg List.length hkeys
    simpa using h3
  have hmlen : msgs.length = st2.buckets.length := by
    have h3 := congrArg List.length hmap
    simpa using h3
  have hunf : transform env { stream := "T1.F01", version := ver, fields := (c0, f0) :: rest }
      [row] =
      (match groupRow ((c0, f0) :: rest) row with
       | Except.error e => Except.error e
       | Except.ok bs =>
         match emitBuckets env "T1.F01" ver 0 bs with
         | Except.error e => Except.error e
         | Except.ok ms => Except.ok (ms ++ [])) := rfl
  refine ⟨msgs, ?_, by rw [hmlen, hblen], ?_⟩
  · rw [hunf, groupRow_eq _ row st2 hfull]
    show (match emitBuckets env "T1.F01" ver 0 st2.buckets with
      | Except.error e => Except.error e
      | Except.ok ms => Except.ok (ms ++ [])) = Except.ok msgs
    rw [hm]
    show Except.ok (msgs ++ []) = Except.ok msgs
    rw [List.append_nil]
  · intro msg hmsg
    have hpl : msg.payload ∈ st2.buckets.map Prod.snd := by
      rw [← hmap]
      exact List.mem_map_of_mem Msg.payload hmsg
    obtain ⟨kp, hkp, hkpe⟩ := List.mem_map.1 hpl
    obtain ⟨g, hg1, hgab, hgtu, hgts, hgkeys⟩ := hinv2 kp hkp
    rw [← hkpe]
    exact ⟨g, hgab, hgtu, hgts, hgkeys⟩

/-- C1 witness: the theorem applied to a concrete wide row carrying a
timestamp and one power reading for each of the turbines A and B. -/
theorem claim_C1_witness :
    ∃ msgs, transform env0
      { stream := "T1.F01", version := "2",
        fields := [("T", { type := "int", tag := "timestamp", turbine_id := some "A" }),
                   ("PA", { type := "int", tag := "power", turbine_id := some "A" }),
                   ("PB", { type := "int", tag := "power", turbine_id := some "B" })] }
      [[("T", some (.rint 5)), ("PA", some (.rint 1)), ("PB", some (.rint 2))]] = .ok msgs ∧
      msgs.length = 2 := by
  obtain ⟨msgs, h1, h2, _⟩ := claim_C1_grouped_two_messages env0 "2"
    [("T", some (.rint 5)), ("PA", some (.rint 1)), ("PB", some (.rint 2))]
    "T" { type := "int", tag := "timestamp", turbine_id := some "A" }
    [("PA", { type := "int", tag := "power", turbine_id := some "A" }),
     ("PB", { type := "int", tag := "power", turbine_id := some "B" })]
    "A" "B" (.vint 5)
    rfl rfl (by decide)
    (by intro cf hcf; fin_cases hcf; exacts [Or.inl rfl, Or.inr rfl])
    ⟨("PB", { type := "int", tag := "power", turbine_id := some "B" }), by decide, rfl⟩
    (by intro cf hcf; fin_cases hcf; exacts [⟨by decide, by decide⟩, ⟨by decide, by decide⟩])
    rfl
    (by intro cf hcf; fin_cases hcf; exacts [⟨.vint 1, rfl⟩, ⟨.vint 2, rfl⟩])
  exact ⟨msgs, h1, h2⟩

end S2P
